import Mathlib

/-!
# SetGame: the rules engine of `src/main.cpp`

A shallow embedding of the engine part of `main.cpp` (the structs `Card` and
`GameStats` and the class `SetGame`) together with theorems about it.

Conventions of the embedding.

* `int` values are modelled by `Int`.  Signed arithmetic is only ever used on
  values far from the ends of the `int` range (attribute values, counters), so
  no wrap-around is modelled for `+` and `++`; `%` on `int` is the truncating
  remainder `Int.tmod`.
* `size_t` loop counters and positions in a `std::vector` are modelled by `Nat`;
  a `std::vector<Card>` is a `List Card` in the same order (`back()` is the last
  element of the list).
* `static_cast<int>` of a `size_t` is modelled by `castInt` (reduction to 32 bit
  two's complement).
* `std::array<int, 3>` is modelled by `Int × Int × Int`.
* The clock (`gameStart`) and everything that draws on the screen is left out.
* `std::shuffle` with a `std::random_device` seed is a parameter
  `shuffle : List Card → List Card` of the functions that call it.
-/

/-- A card, `struct Card`: four `int` attributes. -/
structure Card where
  shape : Int
  color : Int
  number : Int
  shading : Int
deriving DecidableEq, Repr

/-- The counters of `struct GameStats` (the time stamp `gameStart` is left out). -/
structure GameStats where
  setsFound : Int
  hintsUsed : Int
  cardsDealt : Int
deriving DecidableEq, Repr

/-- The constructor `GameStats::GameStats`:
`setsFound(0), hintsUsed(0), cardsDealt(12)`. -/
def GameStats.ctor : GameStats :=
  { setsFound := 0, hintsUsed := 0, cardsDealt := 12 }

/-- The data members of `class SetGame`. -/
structure SetGame where
  board : List Card
  deck : List Card
  editMode : Bool
  stats : GameStats
  showHint : Bool
  hintSet : Int × Int × Int
deriving DecidableEq, Repr

/-- The loop `for (size_t i = lo; i < hi; i++) acc = body(i, acc)`. -/
def forRange {σ : Type} (lo hi : Nat) (body : Nat → σ → σ) (init : σ) : σ :=
  (List.range' lo (hi - lo)).foldl (fun acc i => body i acc) init

/-- The conversion `static_cast<int>(i)` of a `size_t` to a 32 bit `int`. -/
def castInt (i : Nat) : Int :=
  if i % 4294967296 < 2147483648 then ((i % 4294967296 : Nat) : Int)
  else ((i % 4294967296 : Nat) : Int) - 4294967296

/-- The test `std::find(a.begin(), a.end(), x) != a.end()` on a
`std::array<int, 3>`.  In `removeSet` the value looked for is a `size_t`
position `i` of the board and the array element is converted to `size_t` for
the comparison; for an `int` element and a position of a vector (which is
below `2^63`) that comparison holds exactly when the two integers are equal,
which is what is computed here with `x = i`. -/
def arrayContains (a : Int × Int × Int) (x : Int) : Bool :=
  a.1 == x || a.2.1 == x || a.2.2 == x

/-- The element access `board[i]`.  It is only used at positions inside the
board; the value outside is the one of `dummy` in `getCardAt`. -/
def boardAt (board : List Card) (i : Nat) : Card :=
  board.getD i { shape := 0, color := 0, number := 0, shading := 0 }

/-- The method `SetGame::isSetPrivate`. -/
def SetGame.isSetPrivate (c1 c2 c3 : Card) : Bool :=
  let shapeValid := Int.tmod (c1.shape + c2.shape + c3.shape) 3 == 0
  let colorValid := Int.tmod (c1.color + c2.color + c3.color) 3 == 0
  let numberValid := Int.tmod (c1.number + c2.number + c3.number) 3 == 0
  let shadingValid := Int.tmod (c1.shading + c2.shading + c3.shading) 3 == 0
  shapeValid && colorValid && numberValid && shadingValid

/-- The method `SetGame::isSet`. -/
def SetGame.isSet (c1 c2 c3 : Card) : Bool :=
  SetGame.isSetPrivate c1 c2 c3

/-- The four nested loops of `SetGame::initializeDeck`, which fill the deck
before it is shuffled. -/
def generateDeck : List Card :=
  forRange 0 3 (fun color deck =>
    forRange 0 3 (fun shading deck =>
      forRange 0 3 (fun shape deck =>
        forRange 0 3 (fun number deck =>
          deck ++ [{ shape := shape, color := color, number := number,
                     shading := shading }]) deck) deck) deck) []

/-- The method `SetGame::initializeDeck`; `shuffle` stands for `std::shuffle`
with the freshly seeded generator. -/
def SetGame.initializeDeck (shuffle : List Card → List Card) (g : SetGame) : SetGame :=
  { g with deck := shuffle generateDeck }

/-- The body of the loop of `dealCards`:
`board.push_back(deck.back()); deck.pop_back(); stats.cardsDealt++`. -/
def SetGame.dealOne (g : SetGame) : SetGame :=
  match g.deck.getLast? with
  | none => g
  | some c =>
    { g with board := g.board ++ [c], deck := g.deck.dropLast,
             stats := { g.stats with cardsDealt := g.stats.cardsDealt + 1 } }

/-- The loop `for (int i = 0; i < count && !deck.empty(); i++)` of `dealCards`,
by the number `count - i` of iterations that the bound `i < count` still
allows. -/
def SetGame.dealLoop : Nat → SetGame → SetGame
  | 0, g => g
  | n + 1, g => if g.deck.isEmpty then g else SetGame.dealLoop n g.dealOne

/-- The method `SetGame::dealCards`. -/
def SetGame.dealCards (g : SetGame) (count : Int) : SetGame :=
  SetGame.dealLoop count.toNat g

/-- The method `SetGame::findAllSets`. -/
def SetGame.findAllSets (g : SetGame) : List (Int × Int × Int) :=
  forRange 0 g.board.length (fun i sets =>
    forRange (i + 1) g.board.length (fun j sets =>
      forRange (j + 1) g.board.length (fun k sets =>
        if SetGame.isSetPrivate (boardAt g.board i) (boardAt g.board j) (boardAt g.board k)
        then sets ++ [(castInt i, castInt j, castInt k)]
        else sets) sets) sets) []

/-- The method `SetGame::removeSet`. -/
def SetGame.removeSet (g : SetGame) (indices : Int × Int × Int) : SetGame :=
  let newBoard : List Card :=
    forRange 0 g.board.length (fun i newBoard =>
      if arrayContains indices (i : Int) then newBoard
      else newBoard ++ [boardAt g.board i]) []
  let g1 : SetGame := { g with board := newBoard }
  let g2 : SetGame := g1.dealCards 3
  let g3 : SetGame := { g2 with stats := { g2.stats with setsFound := g2.stats.setsFound + 1 } }
  { g3 with showHint := false }

/-- The method `SetGame::toggleHint`. -/
def SetGame.toggleHint (g : SetGame) : SetGame :=
  let g1 : SetGame :=
    if !g.showHint then
      match g.findAllSets with
      | [] => g
      | first :: _ =>
        { g with hintSet := first,
                 stats := { g.stats with hintsUsed := g.stats.hintsUsed + 1 } }
    else g
  { g1 with showHint := !g1.showHint }

/-- The method `SetGame::isHintCard`. -/
def SetGame.isHintCard (g : SetGame) (index : Int) : Bool :=
  g.showHint && arrayContains g.hintSet index

/-- The method `SetGame::addThreeCards`. -/
def SetGame.addThreeCards (g : SetGame) : SetGame :=
  if g.deck.length ≥ 3 then g.dealCards 3 else g

/-- The constructor `SetGame::SetGame`.  The members `board` and `deck` start
empty, `stats` is built by `GameStats::GameStats`; `hintSet` has no initial
value before the body assigns it, `hint0` stands for whatever it holds. -/
def SetGame.ctor (shuffle : List Card → List Card) (hint0 : Int × Int × Int) :
    SetGame :=
  let g0 : SetGame :=
    { board := [], deck := [], editMode := false, stats := GameStats.ctor,
      showHint := false, hintSet := hint0 }
  let g1 : SetGame := g0.initializeDeck shuffle
  let g2 : SetGame := g1.dealCards 12
  { g2 with hintSet := (-1, -1, -1) }


/-- What one pass of the innermost loop body of `findAllSets` appends to `sets`. -/
def tripleAt (board : List Card) (i j k : Nat) : List (Int × Int × Int) :=
  if SetGame.isSetPrivate (boardAt board i) (boardAt board j) (boardAt board k)
  then [(castInt i, castInt j, castInt k)] else []

/-- What the innermost loop of `findAllSets` appends for fixed `i`, `j`. -/
def setsK (board : List Card) (i j : Nat) : List (Int × Int × Int) :=
  (List.range' (j + 1) (board.length - (j + 1))).flatMap (tripleAt board i j)

/-- What the middle loop of `findAllSets` appends for fixed `i`. -/
def setsJ (board : List Card) (i : Nat) : List (Int × Int × Int) :=
  (List.range' (i + 1) (board.length - (i + 1))).flatMap (setsK board i)

/-- Positions `i < j < k` of the board hold three cards for which `isSet` is true. -/
def validTriple (board : List Card) (i j k : Nat) : Prop :=
  i < j ∧ j < k ∧ k < board.length ∧
    ∃ a b c, board[i]? = some a ∧ board[j]? = some b ∧ board[k]? = some c ∧
      SetGame.isSet a b c = true

/-- Strict lexicographic order on index triples. -/
def tripleLt (s t : Int × Int × Int) : Prop :=
  s.1 < t.1 ∨ (s.1 = t.1 ∧ (s.2.1 < t.2.1 ∨ (s.2.1 = t.2.1 ∧ s.2.2 < t.2.2)))

/-- The cards of `l`, which sit at positions `pos`, `pos + 1`, ... of the board, without
the ones at a position that `drop` marks: the list that the loop of `removeSet` builds. -/
def keepIdx (drop : Nat → Bool) : Nat → List Card → List Card
  | _, [] => []
  | pos, x :: xs => if drop pos then keepIdx drop (pos + 1) xs else x :: keepIdx drop (pos + 1) xs

/-- An operation on a session: `dealCards(n)` or `removeSet(indices)`. -/
inductive Op where
  | deal (n : Int)
  | remove (indices : Int × Int × Int)
deriving DecidableEq, Repr

/-- Apply one operation to the session. -/
def SetGame.step (g : SetGame) : Op → SetGame
  | Op.deal n => g.dealCards n
  | Op.remove indices => g.removeSet indices

/-- Apply a sequence of operations to the session, first one first. -/
def SetGame.run (g : SetGame) (ops : List Op) : SetGame :=
  ops.foldl SetGame.step g

/-- The card that `initializeDeck` generates at position `i` of the deck, for `i < 81`:
`color` counts the blocks of 27, `shading` the blocks of 9, `shape` the blocks of 3. -/
def cardOfIndex (i : Nat) : Card :=
  { shape := ((i / 3 % 3 : Nat) : Int), color := ((i / 27 : Nat) : Int),
    number := ((i % 3 : Nat) : Int), shading := ((i / 9 % 3 : Nat) : Int) }

/-- The position in the generated deck of the card that completes the cards at positions
`i` and `j` to a set. -/
def thirdIndex (i j : Nat) : Nat :=
  (6 - i % 3 - j % 3) % 3 + 3 * ((6 - i / 3 % 3 - j / 3 % 3) % 3) +
    9 * ((6 - i / 9 % 3 - j / 9 % 3) % 3) + 27 * ((6 - i / 27 - j / 27) % 3)

/-- The number of pairs `i < j < 81` whose completing card lies behind position `j`. -/
def pairCount : Nat :=
  ((List.range' 0 (81 - 0)).map (fun i =>
    ((List.range' (i + 1) (81 - (i + 1))).map (fun j =>
      if j < thirdIndex i j then 1 else 0)).sum)).sum

/-- Fifteen cards in the order in which they end a shuffled deck: twelve cards with all
attributes in `{0,1}` (no three of them form a set), then the set `(2,2,2,2)`,
`(2,2,2,1)`, `(2,2,2,0)`, which is dealt first. -/
def hintTail : List Card :=
  [Card.mk 1 0 1 1, Card.mk 1 0 1 0, Card.mk 1 0 0 1, Card.mk 1 0 0 0, Card.mk 0 1 1 1,
   Card.mk 0 1 1 0, Card.mk 0 1 0 1, Card.mk 0 1 0 0, Card.mk 0 0 1 1, Card.mk 0 0 1 0,
   Card.mk 0 0 0 1, Card.mk 0 0 0 0, Card.mk 2 2 2 2, Card.mk 2 2 2 1, Card.mk 2 2 2 0]

/-- An outcome of the shuffle: the cards of `hintTail` are moved to the back of the deck. -/
def hintShuffle (deck : List Card) : List Card :=
  deck.filter (fun c => decide (c ∉ hintTail)) ++ hintTail

/-- A session in which a hint was shown and the hinted set was then removed: new session,
`toggleHint()`, `removeSet({0, 1, 2})`. -/
def staleHintGame : SetGame :=
  ((SetGame.ctor hintShuffle (0, 0, 0)).toggleHint).removeSet (0, 1, 2)

/-- An attribute value is one of `0`, `1`, `2`. -/
def attrInRange (x : Int) : Prop := x = 0 ∨ x = 1 ∨ x = 2

instance (x : Int) : Decidable (attrInRange x) := by
  unfold attrInRange; infer_instance

/-- All four attributes of the card lie in `{0, 1, 2}`. -/
def Card.valid (c : Card) : Prop :=
  attrInRange c.shape ∧ attrInRange c.color ∧ attrInRange c.number ∧ attrInRange c.shading

instance (c : Card) : Decidable c.valid := by
  unfold Card.valid; infer_instance

/-- The three values are all equal or pairwise different. -/
def allSameOrAllDifferent (x y z : Int) : Prop :=
  (x = y ∧ y = z) ∨ (x ≠ y ∧ y ≠ z ∧ x ≠ z)

instance (x y z : Int) : Decidable (allSameOrAllDifferent x y z) := by
  unfold allSameOrAllDifferent; infer_instance

theorem attr_rule (x y z : Int) (hx : attrInRange x) (hy : attrInRange y)
    (hz : attrInRange z) :
    ((Int.tmod (x + y + z) 3 == 0) = true ↔ allSameOrAllDifferent x y z) ∧
    ((Int.tmod (x + y + z) 3 == 0) = true ↔ x + y + z ≡ 0 [ZMOD 3]) := by
  rcases hx with rfl | rfl | rfl <;> rcases hy with rfl | rfl | rfl <;>
    rcases hz with rfl | rfl | rfl <;> decide

theorem isSetPrivate_eq_true (a b c : Card) :
    SetGame.isSetPrivate a b c = true ↔
      (Int.tmod (a.shape + b.shape + c.shape) 3 == 0) = true ∧
      (Int.tmod (a.color + b.color + c.color) 3 == 0) = true ∧
      (Int.tmod (a.number + b.number + c.number) 3 == 0) = true ∧
      (Int.tmod (a.shading + b.shading + c.shading) 3 == 0) = true := by
  simp only [SetGame.isSetPrivate, Bool.and_eq_true, and_assoc]

/-- C1. For cards whose attributes lie in `{0,1,2}`, `isSet` holds exactly when each
attribute is all-equal or pairwise different over the three cards, and exactly when each
of the four attribute sums is congruent to 0 modulo 3. -/
theorem isSet_iff_all_same_or_all_different (a b c : Card)
    (ha : a.valid) (hb : b.valid) (hc : c.valid) :
    (SetGame.isSet a b c = true ↔
      allSameOrAllDifferent a.shape b.shape c.shape ∧
      allSameOrAllDifferent a.color b.color c.color ∧
      allSameOrAllDifferent a.number b.number c.number ∧
      allSameOrAllDifferent a.shading b.shading c.shading) ∧
    (SetGame.isSet a b c = true ↔
      a.shape + b.shape + c.shape ≡ 0 [ZMOD 3] ∧
      a.color + b.color + c.color ≡ 0 [ZMOD 3] ∧
      a.number + b.number + c.number ≡ 0 [ZMOD 3] ∧
      a.shading + b.shading + c.shading ≡ 0 [ZMOD 3]) := by
  obtain ⟨ha1, ha2, ha3, ha4⟩ := ha
  obtain ⟨hb1, hb2, hb3, hb4⟩ := hb
  obtain ⟨hc1, hc2, hc3, hc4⟩ := hc
  have h1 := attr_rule _ _ _ ha1 hb1 hc1
  have h2 := attr_rule _ _ _ ha2 hb2 hc2
  have h3 := attr_rule _ _ _ ha3 hb3 hc3
  have h4 := attr_rule _ _ _ ha4 hb4 hc4
  unfold SetGame.isSet
  rw [isSetPrivate_eq_true]
  constructor
  · rw [h1.1, h2.1, h3.1, h4.1]
  · rw [h1.2, h2.2, h3.2, h4.2]

/-- The rule of C1 at the cards `(0,0,0,0)`, `(1,1,1,0)`, `(2,2,2,0)`, which form a set. -/
theorem isSet_iff_all_same_or_all_different_witness :
    (Card.mk 0 0 0 0).valid ∧ (Card.mk 1 1 1 0).valid ∧ (Card.mk 2 2 2 0).valid ∧
    SetGame.isSet (Card.mk 0 0 0 0) (Card.mk 1 1 1 0) (Card.mk 2 2 2 0) = true :=
  ⟨by decide, by decide, by decide,
    ((isSet_iff_all_same_or_all_different (Card.mk 0 0 0 0) (Card.mk 1 1 1 0) (Card.mk 2 2 2 0)
      (by decide) (by decide) (by decide)).1).2 (by decide)⟩

theorem dealOne_concat (g : SetGame) (L : List Card) (c : Card) (h : g.deck = L ++ [c]) :
    g.dealOne = { g with board := g.board ++ [c], deck := L,
                         stats := { g.stats with cardsDealt := g.stats.cardsDealt + 1 } } := by
  unfold SetGame.dealOne
  rw [h, List.getLast?_concat, List.dropLast_concat]

/-- The loop of `dealCards` moves the last `min n d` cards of the deck. -/
theorem dealLoop_eq (n : Nat) (g : SetGame) :
    SetGame.dealLoop n g =
      { g with
        board := g.board ++ (g.deck.drop (g.deck.length - min n g.deck.length)).reverse,
        deck := g.deck.take (g.deck.length - min n g.deck.length),
        stats := { g.stats with
                   cardsDealt := g.stats.cardsDealt + (min n g.deck.length : Nat) } } := by
  induction n generalizing g with
  | zero =>
    obtain ⟨board, deck, editMode, ⟨sf, hu, cd⟩, showHint, hintSet⟩ := g
    simp [SetGame.dealLoop]
  | succ n ih =>
    obtain ⟨board, deck, editMode, ⟨sf, hu, cd⟩, showHint, hintSet⟩ := g
    rcases List.eq_nil_or_concat deck with rfl | ⟨L, c, h⟩
    · simp [SetGame.dealLoop]
    · rw [List.concat_eq_append] at h
      subst h
      have hne : (L ++ [c]).isEmpty = false := by cases L <;> rfl
      rw [SetGame.dealLoop, if_neg (by simp [hne]), dealOne_concat _ L c rfl, ih]
      have hm : min (n + 1) (L.length + 1) = min n L.length + 1 := by omega
      simp only [List.length_append, List.length_singleton, hm, SetGame.mk.injEq,
        GameStats.mk.injEq, true_and, and_true]
      have h1 : L.length + 1 - (min n L.length + 1) = L.length - min n L.length := by omega
      have h2 : L.length - min n L.length ≤ L.length := by omega
      rw [h1]
      refine ⟨?_, ?_, ?_⟩
      · rw [List.drop_append_of_le_length h2]
        simp
      · rw [List.take_append_of_le_length h2]
      · push_cast; ring

theorem dealCards_eq (g : SetGame) (count : Int) :
    g.dealCards count =
      { g with
        board := g.board ++
          (g.deck.drop (g.deck.length - min count.toNat g.deck.length)).reverse,
        deck := g.deck.take (g.deck.length - min count.toNat g.deck.length),
        stats := { g.stats with
                   cardsDealt := g.stats.cardsDealt + (min count.toNat g.deck.length : Nat) } } := by
  unfold SetGame.dealCards
  exact dealLoop_eq _ _

theorem forRange_append {β : Type} (f : Nat → List β) (body : Nat → List β → List β)
    (hbody : ∀ i acc, body i acc = acc ++ f i) (lo hi : Nat) (init : List β) :
    forRange lo hi body init = init ++ (List.range' lo (hi - lo)).flatMap f := by
  unfold forRange
  have hfun : (fun acc i => body i acc) = (fun acc i => acc ++ f i) := by
    funext acc i
    exact hbody i acc
  rw [hfun]
  generalize List.range' lo (hi - lo) = l
  induction l generalizing init with
  | nil => simp
  | cons x xs ih => rw [List.foldl_cons, ih, List.flatMap_cons, List.append_assoc]

theorem findAllSets_eq (g : SetGame) :
    g.findAllSets = (List.range' 0 (g.board.length - 0)).flatMap (setsJ g.board) := by
  unfold SetGame.findAllSets
  rw [forRange_append (setsJ g.board)]
  · simp
  · intro i acc
    unfold setsJ
    apply forRange_append
    intro j acc
    unfold setsK
    apply forRange_append
    intro k acc
    unfold tripleAt
    split <;> simp

theorem castInt_of_lt (i : Nat) (h : i < 2147483648) : castInt i = (i : Int) := by
  unfold castInt
  have h1 : i % 4294967296 = i := Nat.mod_eq_of_lt (by omega)
  rw [h1, if_pos h]

theorem boardAt_of_lt (board : List Card) (i : Nat) (h : i < board.length) :
    board[i]? = some (boardAt board i) := by
  unfold boardAt
  rw [List.getD_eq_getElem?_getD, List.getElem?_eq_getElem h]
  rfl

theorem validTriple_iff (board : List Card) (i j k : Nat) :
    validTriple board i j k ↔ i < j ∧ j < k ∧ k < board.length ∧
      SetGame.isSetPrivate (boardAt board i) (boardAt board j) (boardAt board k) = true := by
  unfold validTriple SetGame.isSet
  constructor
  · rintro ⟨h1, h2, h3, a, b, c, ha, hb, hc, hs⟩
    rw [boardAt_of_lt board i (by omega)] at ha
    rw [boardAt_of_lt board j (by omega)] at hb
    rw [boardAt_of_lt board k h3] at hc
    cases ha; cases hb; cases hc
    exact ⟨h1, h2, h3, hs⟩
  · rintro ⟨h1, h2, h3, hs⟩
    exact ⟨h1, h2, h3, _, _, _, boardAt_of_lt board i (by omega),
      boardAt_of_lt board j (by omega), boardAt_of_lt board k h3, hs⟩

theorem mem_tripleAt (board : List Card) (i j k : Nat) (t : Int × Int × Int) :
    t ∈ tripleAt board i j k ↔
      SetGame.isSetPrivate (boardAt board i) (boardAt board j) (boardAt board k) = true ∧
      t = (castInt i, castInt j, castInt k) := by
  unfold tripleAt
  split <;> simp_all

theorem mem_setsK (board : List Card) (i j : Nat) (t : Int × Int × Int) :
    t ∈ setsK board i j ↔ ∃ k, j < k ∧ k < board.length ∧ t ∈ tripleAt board i j k := by
  unfold setsK
  rw [List.mem_flatMap]
  constructor
  · rintro ⟨k, hk, ht⟩
    rw [List.mem_range'_1] at hk
    exact ⟨k, by omega, by omega, ht⟩
  · rintro ⟨k, h1, h2, ht⟩
    exact ⟨k, List.mem_range'_1.mpr (by omega), ht⟩

theorem mem_setsJ (board : List Card) (i : Nat) (t : Int × Int × Int) :
    t ∈ setsJ board i ↔ ∃ j, i < j ∧ j < board.length ∧ t ∈ setsK board i j := by
  unfold setsJ
  rw [List.mem_flatMap]
  constructor
  · rintro ⟨k, hk, ht⟩
    rw [List.mem_range'_1] at hk
    exact ⟨k, by omega, by omega, ht⟩
  · rintro ⟨k, h1, h2, ht⟩
    exact ⟨k, List.mem_range'_1.mpr (by omega), ht⟩

theorem mem_findAllSets (g : SetGame) (t : Int × Int × Int) :
    t ∈ g.findAllSets ↔ ∃ i j k, validTriple g.board i j k ∧
      t = (castInt i, castInt j, castInt k) := by
  rw [findAllSets_eq, List.mem_flatMap]
  constructor
  · rintro ⟨i, _, ht⟩
    obtain ⟨j, hij, _, ht⟩ := (mem_setsJ _ _ _).mp ht
    obtain ⟨k, hjk, hk, ht⟩ := (mem_setsK _ _ _ _).mp ht
    obtain ⟨hs, rfl⟩ := (mem_tripleAt _ _ _ _ _).mp ht
    exact ⟨i, j, k, (validTriple_iff _ _ _ _).mpr ⟨hij, hjk, hk, hs⟩, rfl⟩
  · rintro ⟨i, j, k, hv, rfl⟩
    obtain ⟨hij, hjk, hk, hs⟩ := (validTriple_iff _ _ _ _).mp hv
    refine ⟨i, List.mem_range'_1.mpr (by omega), (mem_setsJ _ _ _).mpr ⟨j, hij, by omega, ?_⟩⟩
    exact (mem_setsK _ _ _ _).mpr ⟨k, hjk, hk, (mem_tripleAt _ _ _ _ _).mpr ⟨hs, rfl⟩⟩

theorem pairwise_flatMap_range' {β : Type} (R : β → β → Prop) (f : Nat → List β) (s m : Nat)
    (h1 : ∀ a, s ≤ a → a < s + m → (f a).Pairwise R)
    (h2 : ∀ a b, s ≤ a → a < b → b < s + m → ∀ x ∈ f a, ∀ y ∈ f b, R x y) :
    ((List.range' s m).flatMap f).Pairwise R := by
  rw [List.pairwise_flatMap]
  refine ⟨fun a ha => ?_, ?_⟩
  · rw [List.mem_range'_1] at ha
    exact h1 a ha.1 ha.2
  · refine List.Pairwise.imp_of_mem ?_ (List.pairwise_lt_range' s m)
    intro a b ha hb hab
    rw [List.mem_range'_1] at ha hb
    exact h2 a b ha.1 hab hb.2

theorem pairwise_tripleAt (board : List Card) (i j k : Nat) :
    (tripleAt board i j k).Pairwise tripleLt := by
  unfold tripleAt
  split <;> simp

theorem pairwise_findAllSets (g : SetGame) (h : g.board.length ≤ 2147483648) :
    g.findAllSets.Pairwise tripleLt := by
  rw [findAllSets_eq]
  apply pairwise_flatMap_range'
  · intro i _ _
    apply pairwise_flatMap_range'
    · intro j _ _
      apply pairwise_flatMap_range'
      · intro k _ _
        exact pairwise_tripleAt _ _ _ _
      · intro k k' _ hkk hk' x hx y hy
        obtain ⟨_, rfl⟩ := (mem_tripleAt _ _ _ _ _).mp hx
        obtain ⟨_, rfl⟩ := (mem_tripleAt _ _ _ _ _).mp hy
        rw [castInt_of_lt k (by omega), castInt_of_lt k' (by omega)]
        exact Or.inr ⟨rfl, Or.inr ⟨rfl, by show (k : Int) < (k' : Int); omega⟩⟩
    · intro j j' _ hjj hj' x hx y hy
      obtain ⟨k, _, _, hx⟩ := (mem_setsK _ _ _ _).mp hx
      obtain ⟨k', _, _, hy⟩ := (mem_setsK _ _ _ _).mp hy
      obtain ⟨_, rfl⟩ := (mem_tripleAt _ _ _ _ _).mp hx
      obtain ⟨_, rfl⟩ := (mem_tripleAt _ _ _ _ _).mp hy
      rw [castInt_of_lt j (by omega), castInt_of_lt j' (by omega)]
      exact Or.inr ⟨rfl, Or.inl (by show (j : Int) < (j' : Int); omega)⟩
  · intro i i' _ hii hi' x hx y hy
    obtain ⟨j, _, _, hx⟩ := (mem_setsJ _ _ _).mp hx
    obtain ⟨k, _, _, hx⟩ := (mem_setsK _ _ _ _).mp hx
    obtain ⟨j', _, _, hy⟩ := (mem_setsJ _ _ _).mp hy
    obtain ⟨k', _, _, hy⟩ := (mem_setsK _ _ _ _).mp hy
    obtain ⟨_, rfl⟩ := (mem_tripleAt _ _ _ _ _).mp hx
    obtain ⟨_, rfl⟩ := (mem_tripleAt _ _ _ _ _).mp hy
    rw [castInt_of_lt i (by omega), castInt_of_lt i' (by omega)]
    exact Or.inl (by show (i : Int) < (i' : Int); omega)

theorem tripleLt_irrefl (t : Int × Int × Int) : ¬ tripleLt t t := by
  unfold tripleLt
  omega

theorem nodup_findAllSets (g : SetGame) (h : g.board.length ≤ 2147483648) :
    g.findAllSets.Nodup := by
  refine List.Pairwise.imp ?_ (pairwise_findAllSets g h)
  intro a b hab heq
  subst heq
  exact tripleLt_irrefl a hab

theorem mem_findAllSets_of_le (g : SetGame) (h : g.board.length ≤ 2147483648)
    (t : Int × Int × Int) :
    t ∈ g.findAllSets ↔ ∃ i j k : Nat, validTriple g.board i j k ∧
      t = ((i : Int), (j : Int), (k : Int)) := by
  rw [mem_findAllSets]
  constructor
  · rintro ⟨i, j, k, hv, rfl⟩
    have hv' := hv
    obtain ⟨hij, hjk, hk, _⟩ := hv'
    refine ⟨i, j, k, hv, ?_⟩
    rw [castInt_of_lt i (by omega), castInt_of_lt j (by omega), castInt_of_lt k (by omega)]
  · rintro ⟨i, j, k, hv, rfl⟩
    have hv' := hv
    obtain ⟨hij, hjk, hk, _⟩ := hv'
    refine ⟨i, j, k, hv, ?_⟩
    rw [castInt_of_lt i (by omega), castInt_of_lt j (by omega), castInt_of_lt k (by omega)]

/-- The first element of the result of `findAllSets` is the smallest valid triple. -/
theorem findAllSets_head (g : SetGame) (h : g.board.length ≤ 2147483648)
    (first : Int × Int × Int) (rest : List (Int × Int × Int))
    (hl : g.findAllSets = first :: rest) :
    ∃ i j k : Nat, first = ((i : Int), (j : Int), (k : Int)) ∧ validTriple g.board i j k ∧
      ∀ i' j' k' : Nat, validTriple g.board i' j' k' →
        first = ((i' : Int), (j' : Int), (k' : Int)) ∨
        tripleLt first ((i' : Int), (j' : Int), (k' : Int)) := by
  have hmem : first ∈ g.findAllSets := by rw [hl]; exact List.mem_cons_self _ _
  obtain ⟨i, j, k, hv, hfirst⟩ := (mem_findAllSets_of_le g h first).mp hmem
  refine ⟨i, j, k, hfirst, hv, ?_⟩
  intro i' j' k' hv'
  have hmem' : ((i' : Int), (j' : Int), (k' : Int)) ∈ g.findAllSets :=
    (mem_findAllSets_of_le g h _).mpr ⟨i', j', k', hv', rfl⟩
  have hp := pairwise_findAllSets g h
  rw [hl] at hmem' hp
  rcases List.mem_cons.mp hmem' with heq | hin
  · exact Or.inl heq.symm
  · exact Or.inr (List.rel_of_pairwise_cons hp hin)

/-- C2. On a board whose size is representable as `int`, `findAllSets` returns exactly the
triples `(i, j, k)` with `i < j < k < board.size()` and `isSet(board[i], board[j], board[k])`,
each of them once, in strictly ascending lexicographic order; the first element of a
non-empty result is the lexicographically smallest valid triple. -/
theorem findAllSets_spec (g : SetGame) (h : g.board.length ≤ 2147483648) :
    (∀ t : Int × Int × Int, t ∈ g.findAllSets ↔
      ∃ i j k : Nat, validTriple g.board i j k ∧ t = ((i : Int), (j : Int), (k : Int))) ∧
    g.findAllSets.Nodup ∧
    g.findAllSets.Pairwise tripleLt ∧
    (∀ first rest, g.findAllSets = first :: rest →
      ∃ i j k : Nat, first = ((i : Int), (j : Int), (k : Int)) ∧ validTriple g.board i j k ∧
        ∀ i' j' k' : Nat, validTriple g.board i' j' k' →
          first = ((i' : Int), (j' : Int), (k' : Int)) ∨
          tripleLt first ((i' : Int), (j' : Int), (k' : Int))) := by
  exact ⟨mem_findAllSets_of_le g h, nodup_findAllSets g h, pairwise_findAllSets g h,
    findAllSets_head g h⟩

theorem toggleHint_of_cons (g : SetGame) (hhid : g.showHint = false)
    (first : Int × Int × Int) (rest : List (Int × Int × Int))
    (hl : g.findAllSets = first :: rest) :
    g.toggleHint =
      { g with hintSet := first,
               stats := { g.stats with hintsUsed := g.stats.hintsUsed + 1 },
               showHint := true } := by
  unfold SetGame.toggleHint
  simp [hhid, hl]

theorem toggleHint_of_nil (g : SetGame) (hhid : g.showHint = false)
    (hl : g.findAllSets = []) :
    g.toggleHint = { g with showHint := true } := by
  unfold SetGame.toggleHint
  simp [hhid, hl]

theorem toggleHint_of_shown (g : SetGame) (hshown : g.showHint = true) :
    g.toggleHint = { g with showHint := false } := by
  unfold SetGame.toggleHint
  simp [hshown]

theorem arrayContains_iff (a b c x : Int) :
    arrayContains (a, b, c) x = true ↔ x = a ∨ x = b ∨ x = c := by
  unfold arrayContains
  simp only [Bool.or_eq_true, beq_iff_eq, or_assoc]
  constructor <;> rintro (h | h | h) <;> simp [h]

/-- C8. When the hint is hidden and the board (of a size representable as `int`) holds a
valid triple, `toggleHint` shows the hint, adds one to `hintsUsed`, records the
lexicographically smallest valid triple `(i, j, k)` as the hint, `isHintCard(x)` is then
true exactly for `x` in `{i, j, k}`, and board, deck and the other counters are unchanged. -/
theorem toggleHint_records_first_set (g : SetGame) (hhid : g.showHint = false)
    (hsize : g.board.length ≤ 2147483648)
    (hex : ∃ i j k : Nat, validTriple g.board i j k) :
    ∃ i j k : Nat, validTriple g.board i j k ∧
      (∀ i' j' k' : Nat, validTriple g.board i' j' k' →
        ((i : Int), (j : Int), (k : Int)) = ((i' : Int), (j' : Int), (k' : Int)) ∨
        tripleLt ((i : Int), (j : Int), (k : Int)) ((i' : Int), (j' : Int), (k' : Int))) ∧
      g.toggleHint.hintSet = ((i : Int), (j : Int), (k : Int)) ∧
      g.toggleHint.showHint = true ∧
      g.toggleHint.stats.hintsUsed = g.stats.hintsUsed + 1 ∧
      (∀ x : Int, g.toggleHint.isHintCard x = true ↔ x = (i : Int) ∨ x = (j : Int) ∨ x = (k : Int)) ∧
      g.toggleHint.board = g.board ∧ g.toggleHint.deck = g.deck ∧
      g.toggleHint.stats.setsFound = g.stats.setsFound ∧
      g.toggleHint.stats.cardsDealt = g.stats.cardsDealt := by
  obtain ⟨i0, j0, k0, hv0⟩ := hex
  have hmem := (mem_findAllSets_of_le g hsize _).mpr ⟨i0, j0, k0, hv0, rfl⟩
  obtain ⟨first, rest, hl⟩ := List.exists_cons_of_ne_nil (List.ne_nil_of_mem hmem)
  obtain ⟨i, j, k, hfirst, hv, hmin⟩ := findAllSets_head g hsize first rest hl
  subst hfirst
  refine ⟨i, j, k, hv, hmin, ?_⟩
  rw [toggleHint_of_cons g hhid _ rest hl]
  refine ⟨rfl, rfl, rfl, ?_, rfl, rfl, rfl, rfl⟩
  intro x
  unfold SetGame.isHintCard
  simp only [Bool.true_and]
  exact arrayContains_iff _ _ _ x

theorem boardAt_append_cons (pre : List Card) (x : Card) (xs : List Card) :
    boardAt (pre ++ x :: xs) pre.length = x := by
  induction pre with
  | nil => rfl
  | cons y ys ih => simpa [boardAt] using ih

theorem keepIdx_cons (drop : Nat → Bool) (pos : Nat) (x : Card) (xs : List Card) :
    keepIdx drop pos (x :: xs) =
      if drop pos then keepIdx drop (pos + 1) xs else x :: keepIdx drop (pos + 1) xs := rfl

theorem flatMap_keep_eq (drop : Nat → Bool) (l pre : List Card) :
    (List.range' pre.length l.length).flatMap
        (fun i => if drop i then [] else [boardAt (pre ++ l) i]) =
      keepIdx drop pre.length l := by
  induction l generalizing pre with
  | nil => simp [keepIdx]
  | cons x xs ih =>
    have h := ih (pre ++ [x])
    rw [List.length_append, List.length_singleton, List.append_assoc,
      List.singleton_append] at h
    rw [List.length_cons, List.range'_succ, List.flatMap_cons, h, boardAt_append_cons,
      keepIdx_cons]
    split <;> simp

theorem removeLoop_eq (indices : Int × Int × Int) (board : List Card) :
    forRange 0 board.length (fun i newBoard =>
      if arrayContains indices (i : Int) then newBoard
      else newBoard ++ [boardAt board i]) [] =
    keepIdx (fun i => arrayContains indices (i : Int)) 0 board := by
  rw [forRange_append (fun i => if arrayContains indices (i : Int) then []
      else [boardAt board i])]
  · have h := flatMap_keep_eq (fun i => arrayContains indices (i : Int)) board []
    simpa using h
  · intro i acc
    split <;> simp

theorem removeSet_eq (g : SetGame) (indices : Int × Int × Int) :
    g.removeSet indices =
      { (SetGame.dealCards
          { g with board := keepIdx (fun i => arrayContains indices (i : Int)) 0 g.board } 3) with
        stats :=
          { (SetGame.dealCards
              { g with board := keepIdx (fun i => arrayContains indices (i : Int)) 0 g.board }
              3).stats with
            setsFound :=
              (SetGame.dealCards
                { g with board := keepIdx (fun i => arrayContains indices (i : Int)) 0 g.board }
                3).stats.setsFound + 1 },
        showHint := false } := by
  unfold SetGame.removeSet
  simp only [removeLoop_eq]

theorem keepIdx_sublist (drop : Nat → Bool) (pos : Nat) (l : List Card) :
    (keepIdx drop pos l).Sublist l := by
  induction l generalizing pos with
  | nil => simp [keepIdx]
  | cons x xs ih =>
    rw [keepIdx_cons]
    split
    · exact (ih (pos + 1)).cons x
    · exact (ih (pos + 1)).cons₂ x

theorem keepIdx_none (drop : Nat → Bool) (pos : Nat) (l : List Card)
    (h : ∀ p, pos ≤ p → drop p = false) : keepIdx drop pos l = l := by
  induction l generalizing pos with
  | nil => simp [keepIdx]
  | cons x xs ih =>
    rw [keepIdx_cons, h pos (Nat.le_refl _), ih (pos + 1) (fun p hp => h p (by omega))]
    simp

theorem keepIdx_congr (d1 d2 : Nat → Bool) (pos : Nat) (l : List Card)
    (h : ∀ p, d1 p = d2 p) : keepIdx d1 pos l = keepIdx d2 pos l := by
  have : d1 = d2 := funext h
  rw [this]

/-- Dropping the position `k` together with positions below `k` is dropping those after
the element at position `k` has been erased. -/
theorem keepIdx_peel (d : Nat → Bool) (k : Nat) (hd : ∀ p, d p = true → p < k)
    (pos : Nat) (l : List Card) (hpos : pos ≤ k) :
    keepIdx (fun p => d p || decide (p = k)) pos l = keepIdx d pos (l.eraseIdx (k - pos)) := by
  induction l generalizing pos with
  | nil => simp [keepIdx]
  | cons x xs ih =>
    have hdk : ∀ p, k ≤ p → d p = false := by
      intro p hp
      cases hdp : d p with
      | false => rfl
      | true => exact absurd (hd p hdp) (by omega)
    rcases Nat.eq_or_lt_of_le hpos with heq | hlt
    · subst heq
      rw [Nat.sub_self, List.eraseIdx_cons_zero, keepIdx_cons]
      simp only [decide_True, Bool.or_true, if_true]
      rw [keepIdx_none _ (pos + 1) xs, keepIdx_none d pos xs (fun p hp => hdk p hp)]
      intro p hp
      rw [hdk p (by omega)]
      simp
      omega
    · have hk : k - pos = (k - (pos + 1)) + 1 := by omega
      rw [hk, List.eraseIdx_cons_succ, keepIdx_cons, keepIdx_cons]
      have hne : decide (pos = k) = false := by simp; omega
      simp only [hne, Bool.or_false]
      rw [ih (pos + 1) (by omega)]

theorem keepIdx_three (board : List Card) (i j k : Nat) (hij : i < j) (hjk : j < k) :
    keepIdx (fun p => (decide (p = i) || decide (p = j)) || decide (p = k)) 0 board =
      ((board.eraseIdx k).eraseIdx j).eraseIdx i := by
  have h1 := keepIdx_peel (fun p => decide (p = i) || decide (p = j)) k
    (by intro p hp; simp at hp; omega) 0 board (Nat.zero_le _)
  have h2 := keepIdx_peel (fun p => decide (p = i)) j
    (by intro p hp; simp at hp; omega) 0 (board.eraseIdx k) (Nat.zero_le _)
  have h3 := keepIdx_peel (fun _ => false) i
    (by intro p hp; simp at hp) 0 ((board.eraseIdx k).eraseIdx j) (Nat.zero_le _)
  simp only [Nat.sub_zero, Bool.false_or] at h1 h2 h3
  rw [h1, h2, h3]
  exact keepIdx_none _ _ _ (fun _ _ => rfl)

theorem sort_three (a b c : Int) (n : Nat) (ha : 0 ≤ a) (hb : 0 ≤ b) (hc : 0 ≤ c)
    (han : a < n) (hbn : b < n) (hcn : c < n) (hab : a ≠ b) (hbc : b ≠ c) (hac : a ≠ c) :
    ∃ i j k : Nat, i < j ∧ j < k ∧ k < n ∧
      ∀ x : Int, (x = a ∨ x = b ∨ x = c) ↔ (x = (i : Int) ∨ x = (j : Int) ∨ x = (k : Int)) := by
  obtain ⟨a', rfl⟩ := Int.eq_ofNat_of_zero_le ha
  obtain ⟨b', rfl⟩ := Int.eq_ofNat_of_zero_le hb
  obtain ⟨c', rfl⟩ := Int.eq_ofNat_of_zero_le hc
  by_cases h1 : a' < b'
  · by_cases h2 : b' < c'
    · exact ⟨a', b', c', by omega, by omega, by omega, fun x => by omega⟩
    · by_cases h3 : a' < c'
      · exact ⟨a', c', b', by omega, by omega, by omega, fun x => by omega⟩
      · exact ⟨c', a', b', by omega, by omega, by omega, fun x => by omega⟩
  · by_cases h2 : b' < c'
    · by_cases h3 : a' < c'
      · exact ⟨b', a', c', by omega, by omega, by omega, fun x => by omega⟩
      · exact ⟨b', c', a', by omega, by omega, by omega, fun x => by omega⟩
    · exact ⟨c', b', a', by omega, by omega, by omega, fun x => by omega⟩

theorem keepIdx_of_set_eq (board : List Card) (a b c : Int) (i j k : Nat)
    (hij : i < j) (hjk : j < k)
    (hset : ∀ x : Int, (x = a ∨ x = b ∨ x = c) ↔
      (x = (i : Int) ∨ x = (j : Int) ∨ x = (k : Int))) :
    keepIdx (fun p => arrayContains (a, b, c) (p : Int)) 0 board =
      ((board.eraseIdx k).eraseIdx j).eraseIdx i := by
  rw [← keepIdx_three board i j k hij hjk]
  apply keepIdx_congr
  intro p
  rw [Bool.eq_iff_iff, arrayContains_iff, hset]
  simp only [Bool.or_eq_true, decide_eq_true_eq, or_assoc]
  omega

/-- C4. For pairwise distinct indices `a`, `b`, `c` inside the board, `removeSet` leaves the
board with the cards at these three positions deleted (`i < j < k` are the three indices in
ascending order), the other cards in their order, followed by the `m = min(3, d)` cards
taken from the back of the deck; the deck keeps its first `d - m` cards, `setsFound` grows
by one, `hintsUsed` is unchanged and the hint is hidden.  With 12 cards on the board and at
least 3 in the deck the board keeps 12 cards and the deck loses 3. -/
theorem removeSet_spec (g : SetGame) (a b c : Int)
    (ha : 0 ≤ a) (hb : 0 ≤ b) (hc : 0 ≤ c)
    (han : a < g.board.length) (hbn : b < g.board.length) (hcn : c < g.board.length)
    (hab : a ≠ b) (hbc : b ≠ c) (hac : a ≠ c) :
    ∃ i j k : Nat, i < j ∧ j < k ∧ k < g.board.length ∧
      (∀ x : Int, (x = a ∨ x = b ∨ x = c) ↔
        (x = (i : Int) ∨ x = (j : Int) ∨ x = (k : Int))) ∧
      (g.removeSet (a, b, c)).board =
        ((g.board.eraseIdx k).eraseIdx j).eraseIdx i ++
          (g.deck.drop (g.deck.length - min 3 g.deck.length)).reverse ∧
      (g.removeSet (a, b, c)).deck = g.deck.take (g.deck.length - min 3 g.deck.length) ∧
      (g.removeSet (a, b, c)).deck.length = g.deck.length - min 3 g.deck.length ∧
      (g.removeSet (a, b, c)).board.length = g.board.length - 3 + min 3 g.deck.length ∧
      (g.removeSet (a, b, c)).stats.setsFound = g.stats.setsFound + 1 ∧
      (g.removeSet (a, b, c)).stats.hintsUsed = g.stats.hintsUsed ∧
      (g.removeSet (a, b, c)).showHint = false ∧
      (g.board.length = 12 → 3 ≤ g.deck.length →
        (g.removeSet (a, b, c)).board.length = 12 ∧
        (g.removeSet (a, b, c)).deck.length + 3 = g.deck.length) := by
  obtain ⟨i, j, k, hij, hjk, hk, hset⟩ := sort_three a b c _ ha hb hc han hbn hcn hab hbc hac
  refine ⟨i, j, k, hij, hjk, hk, hset, ?_⟩
  have hlen : (((g.board.eraseIdx k).eraseIdx j).eraseIdx i).length = g.board.length - 3 := by
    have h1 : (g.board.eraseIdx k).length = g.board.length - 1 :=
      List.length_eraseIdx_of_lt hk
    have h2 : ((g.board.eraseIdx k).eraseIdx j).length = g.board.length - 2 := by
      rw [List.length_eraseIdx_of_lt (by omega), h1]; omega
    rw [List.length_eraseIdx_of_lt (by omega), h2]; omega
  rw [removeSet_eq, keepIdx_of_set_eq g.board a b c i j k hij hjk hset, dealCards_eq]
  have h3 : (3 : Int).toNat = 3 := rfl
  simp only [h3]
  refine ⟨trivial, trivial, ?_, ?_, trivial, trivial, trivial, ?_⟩
  · rw [List.length_take]; omega
  · rw [List.length_append, List.length_reverse, List.length_drop, hlen]; omega
  · intro h12 hd
    rw [List.length_append, List.length_reverse, List.length_drop, hlen, List.length_take]
    omega

/-- C5. `dealCards(n)` moves exactly `m = min(max(n, 0), d)` cards: the last `m` cards of
the deck leave it and are appended to the board in the order in which they are taken from
the back of the deck, the rest of the deck and the cards already on the board stay,
`cardsDealt` grows by `m`, and `setsFound`, `hintsUsed` and the hint state are unchanged. -/
theorem dealCards_spec (g : SetGame) (n : Int) :
    (g.dealCards n).deck =
      g.deck.take (g.deck.length - min (max n 0).toNat g.deck.length) ∧
    (g.dealCards n).board =
      g.board ++ (g.deck.drop (g.deck.length - min (max n 0).toNat g.deck.length)).reverse ∧
    (g.dealCards n).deck.length = g.deck.length - min (max n 0).toNat g.deck.length ∧
    (g.dealCards n).board.length = g.board.length + min (max n 0).toNat g.deck.length ∧
    (g.dealCards n).stats.cardsDealt =
      g.stats.cardsDealt + ((min (max n 0).toNat g.deck.length : Nat) : Int) ∧
    (g.dealCards n).stats.setsFound = g.stats.setsFound ∧
    (g.dealCards n).stats.hintsUsed = g.stats.hintsUsed ∧
    (g.dealCards n).showHint = g.showHint ∧
    (g.dealCards n).hintSet = g.hintSet ∧
    (g.dealCards n).editMode = g.editMode := by
  have hn : (max n 0).toNat = n.toNat := by
    rcases le_total n 0 with h | h
    · rw [max_eq_right h, Int.toNat_of_nonpos h]; rfl
    · rw [max_eq_left h]
  rw [hn, dealCards_eq]
  refine ⟨rfl, rfl, ?_, ?_, rfl, rfl, rfl, rfl, rfl, rfl⟩
  · show (g.deck.take _).length = _
    rw [List.length_take]; omega
  · show (g.board ++ _).length = _
    rw [List.length_append, List.length_reverse, List.length_drop]; omega

theorem length_generateDeck : generateDeck.length = 81 := by decide!

theorem nodup_generateDeck : generateDeck.Nodup := by decide!

/-- The session right after construction, for any outcome of the shuffle. -/
theorem ctor_eq (shuffle : List Card → List Card) (hint0 : Int × Int × Int)
    (hperm : (shuffle generateDeck).Perm generateDeck) :
    SetGame.ctor shuffle hint0 =
      { board := ((shuffle generateDeck).drop 69).reverse,
        deck := (shuffle generateDeck).take 69,
        editMode := false,
        stats := { setsFound := 0, hintsUsed := 0, cardsDealt := 24 },
        showHint := false,
        hintSet := (-1, -1, -1) } := by
  have hlen : (shuffle generateDeck).length = 81 := by
    rw [hperm.length_eq, length_generateDeck]
  unfold SetGame.ctor SetGame.initializeDeck GameStats.ctor
  simp only [dealCards_eq, hlen]
  have h12 : (12 : Int).toNat = 12 := rfl
  simp [h12]

/-- The counters after construction. For every outcome of the shuffle the constructor leaves
`cardsDealt == 24`, not 12: `GameStats::GameStats` starts the counter at 12 and
`dealCards(12)` adds the 12 dealt cards again.  The other three values are as claimed. -/
theorem ctor_counters (shuffle : List Card → List Card) (hint0 : Int × Int × Int)
    (hperm : (shuffle generateDeck).Perm generateDeck) :
    (SetGame.ctor shuffle hint0).stats.cardsDealt = 24 ∧
    (SetGame.ctor shuffle hint0).stats.setsFound = 0 ∧
    (SetGame.ctor shuffle hint0).stats.hintsUsed = 0 ∧
    (SetGame.ctor shuffle hint0).board.length = 12 ∧
    (SetGame.ctor shuffle hint0).deck.length = 69 := by
  have hlen : (shuffle generateDeck).length = 81 := by
    rw [hperm.length_eq, length_generateDeck]
  rw [ctor_eq shuffle hint0 hperm]
  refine ⟨rfl, rfl, rfl, ?_, ?_⟩
  · show (((shuffle generateDeck).drop 69).reverse).length = 12
    rw [List.length_reverse, List.length_drop, hlen]
  · show ((shuffle generateDeck).take 69).length = 69
    rw [List.length_take, hlen]; rfl

/-- C6 (failing input). A new session, here with the shuffle that leaves the deck as
generated, has `cardsDealt == 24` while 12 cards are on the board. -/
theorem ctor_cardsDealt_is_24 :
    (id generateDeck).Perm generateDeck ∧
    (SetGame.ctor id (0, 0, 0)).stats.cardsDealt = 24 ∧
    (SetGame.ctor id (0, 0, 0)).stats.cardsDealt ≠ 12 ∧
    (SetGame.ctor id (0, 0, 0)).stats.setsFound = 0 ∧
    (SetGame.ctor id (0, 0, 0)).stats.hintsUsed = 0 ∧
    (SetGame.ctor id (0, 0, 0)).board.length = 12 := by
  have hp : (id generateDeck).Perm generateDeck := by
    rw [id_eq]
  have h := ctor_counters id (0, 0, 0) hp
  refine ⟨hp, h.1, ?_, h.2.1, h.2.2.1, h.2.2.2.1⟩
  rw [h.1]; decide

/-- C10 (counterexample). After `dealCards(67)` on a new session two cards are left in the
deck; there `addThreeCards` deals nothing while `dealCards(3)` deals both cards. -/
theorem addThreeCards_ne_dealCards_three :
    ((SetGame.ctor id (0, 0, 0)).dealCards 67).deck.length = 2 ∧
    ((SetGame.ctor id (0, 0, 0)).dealCards 67).addThreeCards =
      (SetGame.ctor id (0, 0, 0)).dealCards 67 ∧
    (((SetGame.ctor id (0, 0, 0)).dealCards 67).dealCards 3).deck.length = 0 ∧
    ((SetGame.ctor id (0, 0, 0)).dealCards 67).addThreeCards ≠
      ((SetGame.ctor id (0, 0, 0)).dealCards 67).dealCards 3 := by
  decide!

/-- C10 (amended). With at least 3 cards in the deck `addThreeCards` is `dealCards(3)` and
moves exactly the last 3 cards of the deck to the board; with fewer than 3 cards in the
deck it changes nothing. -/
theorem addThreeCards_spec (g : SetGame) :
    (3 ≤ g.deck.length →
      g.addThreeCards = g.dealCards 3 ∧
      g.addThreeCards.board = g.board ++ (g.deck.drop (g.deck.length - 3)).reverse ∧
      g.addThreeCards.deck = g.deck.take (g.deck.length - 3) ∧
      g.addThreeCards.stats.cardsDealt = g.stats.cardsDealt + 3) ∧
    (g.deck.length < 3 → g.addThreeCards = g) := by
  constructor
  · intro h
    have h1 : g.addThreeCards = g.dealCards 3 := by
      unfold SetGame.addThreeCards
      rw [if_pos h]
    have h3 : (3 : Int).toNat = 3 := rfl
    have hm : min 3 g.deck.length = 3 := by omega
    rw [h1, dealCards_eq, h3, hm]
    exact ⟨rfl, rfl, rfl, rfl⟩
  · intro h
    unfold SetGame.addThreeCards
    rw [if_neg (by omega)]

/-- The two cases of the amended C10: a new session (69 cards in the deck) and the same
session after `dealCards(67)` (2 cards in the deck). -/
theorem addThreeCards_spec_witness :
    (3 ≤ (SetGame.ctor id (0, 0, 0)).deck.length ∧
      (SetGame.ctor id (0, 0, 0)).addThreeCards = (SetGame.ctor id (0, 0, 0)).dealCards 3) ∧
    (((SetGame.ctor id (0, 0, 0)).dealCards 67).deck.length < 3 ∧
      ((SetGame.ctor id (0, 0, 0)).dealCards 67).addThreeCards =
        (SetGame.ctor id (0, 0, 0)).dealCards 67) :=
  ⟨⟨by decide!, ((addThreeCards_spec (SetGame.ctor id (0, 0, 0))).1 (by decide!)).1⟩,
   ⟨by decide!, (addThreeCards_spec ((SetGame.ctor id (0, 0, 0)).dealCards 67)).2 (by decide!)⟩⟩

theorem dealCards_perm (g : SetGame) (n : Int) :
    ((g.dealCards n).board ++ (g.dealCards n).deck).Perm (g.board ++ g.deck) := by
  rw [dealCards_eq]
  show (g.board ++ (g.deck.drop _).reverse ++ g.deck.take _).Perm (g.board ++ g.deck)
  rw [List.append_assoc]
  refine List.Perm.append_left g.board ?_
  refine (List.Perm.append_right _ (List.reverse_perm _)).trans ?_
  refine List.perm_append_comm.trans ?_
  rw [List.take_append_drop]

theorem removeSet_perm (g : SetGame) (indices : Int × Int × Int) :
    ((g.removeSet indices).board ++ (g.removeSet indices).deck).Perm
      (keepIdx (fun i => arrayContains indices (i : Int)) 0 g.board ++ g.deck) := by
  rw [removeSet_eq]
  exact dealCards_perm
    { g with board := keepIdx (fun i => arrayContains indices (i : Int)) 0 g.board } 3

theorem removeSet_nodup (g : SetGame) (indices : Int × Int × Int)
    (h : (g.board ++ g.deck).Nodup) :
    ((g.removeSet indices).board ++ (g.removeSet indices).deck).Nodup := by
  rw [(removeSet_perm g indices).nodup_iff]
  exact List.Nodup.sublist ((keepIdx_sublist _ 0 g.board).append_right g.deck) h

theorem step_nodup (g : SetGame) (op : Op) (h : (g.board ++ g.deck).Nodup) :
    ((g.step op).board ++ (g.step op).deck).Nodup := by
  cases op with
  | deal n => exact (dealCards_perm g n).nodup_iff.mpr h
  | remove indices => exact removeSet_nodup g indices h

theorem run_nodup (ops : List Op) (g : SetGame) (h : (g.board ++ g.deck).Nodup) :
    ((g.run ops).board ++ (g.run ops).deck).Nodup := by
  induction ops generalizing g with
  | nil => exact h
  | cons op ops ih => exact ih (g.step op) (step_nodup g op h)

theorem ctor_nodup (shuffle : List Card → List Card) (hint0 : Int × Int × Int)
    (hperm : (shuffle generateDeck).Perm generateDeck) :
    ((SetGame.ctor shuffle hint0).board ++ (SetGame.ctor shuffle hint0).deck).Nodup := by
  rw [ctor_eq shuffle hint0 hperm]
  show (((shuffle generateDeck).drop 69).reverse ++ (shuffle generateDeck).take 69).Nodup
  have hp : (((shuffle generateDeck).drop 69).reverse ++ (shuffle generateDeck).take 69).Perm
      generateDeck := by
    refine (List.Perm.append_right _ (List.reverse_perm _)).trans ?_
    refine List.perm_append_comm.trans ?_
    rw [List.take_append_drop]
    exact hperm
  exact hp.nodup_iff.mpr nodup_generateDeck

/-- C3. Starting from a new session, whose deck is any permutation of the 81 generated
cards, after every finite sequence of `dealCards(n)` and `removeSet(indices)` operations
no card occurs twice in board and deck together; `dealCards` leaves the combined size of
board and deck unchanged, and a `removeSet` with three pairwise distinct indices inside the
board lowers it by exactly 3. -/
theorem board_deck_invariant (shuffle : List Card → List Card) (hint0 : Int × Int × Int)
    (hperm : (shuffle generateDeck).Perm generateDeck) (ops : List Op) :
    (((SetGame.ctor shuffle hint0).run ops).board ++
      ((SetGame.ctor shuffle hint0).run ops).deck).Nodup ∧
    (∀ (g : SetGame) (n : Int),
      (g.dealCards n).board.length + (g.dealCards n).deck.length =
        g.board.length + g.deck.length) ∧
    (∀ (g : SetGame) (a b c : Int), 0 ≤ a → 0 ≤ b → 0 ≤ c →
      a < g.board.length → b < g.board.length → c < g.board.length →
      a ≠ b → b ≠ c → a ≠ c →
      (g.removeSet (a, b, c)).board.length + (g.removeSet (a, b, c)).deck.length + 3 =
        g.board.length + g.deck.length) := by
  refine ⟨run_nodup ops _ (ctor_nodup shuffle hint0 hperm), ?_, ?_⟩
  · intro g n
    have h := (dealCards_perm g n).length_eq
    rw [List.length_append, List.length_append] at h
    exact h
  · intro g a b c ha hb hc han hbn hcn hab hbc hac
    obtain ⟨i, j, k, hij, hjk, hk, hset⟩ :=
      sort_three a b c _ ha hb hc han hbn hcn hab hbc hac
    have h := (removeSet_perm g (a, b, c)).length_eq
    rw [keepIdx_of_set_eq g.board a b c i j k hij hjk hset, List.length_append,
      List.length_append] at h
    have h1 : (g.board.eraseIdx k).length = g.board.length - 1 :=
      List.length_eraseIdx_of_lt hk
    have h2 : ((g.board.eraseIdx k).eraseIdx j).length = g.board.length - 2 := by
      rw [List.length_eraseIdx_of_lt (by omega), h1]; omega
    have h3 : (((g.board.eraseIdx k).eraseIdx j).eraseIdx i).length = g.board.length - 3 := by
      rw [List.length_eraseIdx_of_lt (by omega), h2]; omega
    omega

theorem length_flatMap_eq_sum {α β : Type} (f : α → List β) (l : List α) :
    (l.flatMap f).length = (l.map (fun a => (f a).length)).sum := by
  induction l with
  | nil => rfl
  | cons x xs ih => rw [List.flatMap_cons, List.length_append, ih, List.map_cons, List.sum_cons]

theorem length_flatMap_eq_countP {α β : Type} (f : α → List β) (p : α → Bool) (l : List α)
    (h : ∀ a, (f a).length = if p a then 1 else 0) :
    (l.flatMap f).length = l.countP p := by
  induction l with
  | nil => rfl
  | cons x xs ih =>
    rw [List.flatMap_cons, List.length_append, ih, h, List.countP_cons]
    omega

theorem length_setsK (board : List Card) (i j : Nat) :
    (setsK board i j).length =
      (List.range' (j + 1) (board.length - (j + 1))).countP
        (fun k => SetGame.isSetPrivate (boardAt board i) (boardAt board j) (boardAt board k)) := by
  unfold setsK
  apply length_flatMap_eq_countP
  intro k
  unfold tripleAt
  split <;> rfl

theorem length_findAllSets (g : SetGame) :
    g.findAllSets.length =
      ((List.range' 0 (g.board.length - 0)).map (fun i =>
        ((List.range' (i + 1) (g.board.length - (i + 1))).map (fun j =>
          (List.range' (j + 1) (g.board.length - (j + 1))).countP
            (fun k => SetGame.isSetPrivate (boardAt g.board i) (boardAt g.board j)
              (boardAt g.board k)))).sum)).sum := by
  rw [findAllSets_eq, length_flatMap_eq_sum]
  congr 1
  apply List.map_congr_left
  intro i _
  unfold setsJ
  rw [length_flatMap_eq_sum]
  congr 1
  apply List.map_congr_left
  intro j _
  exact length_setsK _ _ _

theorem boardAt_generateDeck : ∀ i, i < 81 → boardAt generateDeck i = cardOfIndex i := by
  decide!

theorem tmod_cast_sum (x y z : Nat) :
    ((Int.tmod ((x : Int) + (y : Int) + (z : Int)) 3 == 0) = true) ↔ (x + y + z) % 3 = 0 := by
  rw [beq_iff_eq, Int.tmod_eq_emod (by omega) (by omega)]
  omega

theorem digit_rule (x y z : Nat) (hx : x < 3) (hy : y < 3) (hz : z < 3) :
    (x + y + z) % 3 = 0 ↔ z = (6 - x - y) % 3 := by
  omega

theorem index_digits (k t0 t1 t2 t3 : Nat) (h0 : t0 < 3) (h1 : t1 < 3) (h2 : t2 < 3) :
    (k / 3 % 3 = t1 ∧ k / 27 = t3 ∧ k % 3 = t0 ∧ k / 9 % 3 = t2) ↔
      k = t0 + 3 * t1 + 9 * t2 + 27 * t3 := by
  omega

theorem thirdIndex_lt (i j : Nat) : thirdIndex i j < 81 := by
  unfold thirdIndex
  omega

theorem isSet_cardOfIndex (i j k : Nat) (hi : i < 81) (hj : j < 81) (hk : k < 81) :
    SetGame.isSetPrivate (cardOfIndex i) (cardOfIndex j) (cardOfIndex k) = true ↔
      k = thirdIndex i j := by
  have h3 : 0 < 3 := by decide
  rw [isSetPrivate_eq_true]
  simp only [cardOfIndex, tmod_cast_sum]
  rw [digit_rule (i / 3 % 3) (j / 3 % 3) (k / 3 % 3) (Nat.mod_lt _ h3) (Nat.mod_lt _ h3)
      (Nat.mod_lt _ h3),
    digit_rule (i / 27) (j / 27) (k / 27) (by omega) (by omega) (by omega),
    digit_rule (i % 3) (j % 3) (k % 3) (Nat.mod_lt _ h3) (Nat.mod_lt _ h3) (Nat.mod_lt _ h3),
    digit_rule (i / 9 % 3) (j / 9 % 3) (k / 9 % 3) (Nat.mod_lt _ h3) (Nat.mod_lt _ h3)
      (Nat.mod_lt _ h3)]
  exact index_digits k _ _ _ _ (Nat.mod_lt _ h3) (Nat.mod_lt _ h3) (Nat.mod_lt _ h3)

theorem countP_generateDeck (i j : Nat) (hi : i < 81) (hj : j < 81) :
    (List.range' (j + 1) (81 - (j + 1))).countP
        (fun k => SetGame.isSetPrivate (boardAt generateDeck i) (boardAt generateDeck j)
          (boardAt generateDeck k)) =
      if j < thirdIndex i j then 1 else 0 := by
  have hcongr : (List.range' (j + 1) (81 - (j + 1))).countP
        (fun k => SetGame.isSetPrivate (boardAt generateDeck i) (boardAt generateDeck j)
          (boardAt generateDeck k)) =
      (List.range' (j + 1) (81 - (j + 1))).countP (fun k => k == thirdIndex i j) := by
    apply List.countP_congr
    intro k hk
    rw [List.mem_range'_1] at hk
    have hk81 : k < 81 := by omega
    rw [boardAt_generateDeck i hi, boardAt_generateDeck j hj, boardAt_generateDeck k hk81,
      isSet_cardOfIndex i j k hi hj hk81, beq_iff_eq]
  have ht := thirdIndex_lt i j
  rw [hcongr, ← List.count_eq_countP, List.count_eq_of_nodup (List.nodup_range' _ _)]
  by_cases h : j < thirdIndex i j
  · rw [if_pos h, if_pos (List.mem_range'_1.mpr (by omega))]
  · rw [if_neg h, if_neg]
    rw [List.mem_range'_1]
    omega

theorem pairCount_eq : pairCount = 1080 := by decide!

theorem length_findAllSets_generateDeck (g : SetGame) (h : g.board = generateDeck) :
    g.findAllSets.length = 1080 := by
  rw [length_findAllSets, h, length_generateDeck, ← pairCount_eq]
  unfold pairCount
  refine congrArg List.sum (List.map_congr_left ?_)
  intro i hi
  rw [List.mem_range'_1] at hi
  refine congrArg List.sum (List.map_congr_left ?_)
  intro j hj
  rw [List.mem_range'_1] at hj
  exact countP_generateDeck i j (by omega) (by omega)

theorem valid_of_mem_generateDeck : ∀ c ∈ generateDeck, c.valid := by decide!

theorem all_combinations_mem :
    ∀ s, s < 3 → ∀ co, co < 3 → ∀ n, n < 3 → ∀ sh, sh < 3 →
      Card.mk ((s : Nat) : Int) ((co : Nat) : Int) ((n : Nat) : Int) ((sh : Nat) : Int) ∈
        generateDeck := by
  decide!

theorem attrInRange_cast (x : Int) (h : attrInRange x) : ∃ n : Nat, n < 3 ∧ x = (n : Int) := by
  rcases h with rfl | rfl | rfl
  · exact ⟨0, by decide, rfl⟩
  · exact ⟨1, by decide, rfl⟩
  · exact ⟨2, by decide, rfl⟩

theorem mem_generateDeck_of_valid (c : Card) (h : c.valid) : c ∈ generateDeck := by
  obtain ⟨s, co, n, sh⟩ := c
  obtain ⟨h1, h2, h3, h4⟩ := h
  obtain ⟨s', hs, rfl⟩ := attrInRange_cast _ h1
  obtain ⟨co', hco, rfl⟩ := attrInRange_cast _ h2
  obtain ⟨n', hn, rfl⟩ := attrInRange_cast _ h3
  obtain ⟨sh', hsh, rfl⟩ := attrInRange_cast _ h4
  exact all_combinations_mem s' hs co' hco n' hn sh' hsh

/-- C9. The deck as `initializeDeck` generates it before shuffling holds each of the 81
combinations of attribute values in `{0,1,2}` exactly once, and on a board that holds
this deck `findAllSets` returns exactly 1080 triples. -/
theorem findAllSets_full_deck (g : SetGame) :
    generateDeck.length = 81 ∧ generateDeck.Nodup ∧
    (∀ c : Card, c ∈ generateDeck ↔ c.valid) ∧
    (SetGame.findAllSets { g with board := generateDeck }).length = 1080 :=
  ⟨length_generateDeck, nodup_generateDeck,
    fun c => ⟨valid_of_mem_generateDeck c, mem_generateDeck_of_valid c⟩,
    length_findAllSets_generateDeck _ rfl⟩

/-- With the hint hidden and no valid triple on the board, `toggleHint` only sets
`showHint`: the counters stay, and so does the triple recorded by an earlier hint. -/
theorem toggleHint_no_set (g : SetGame) (hhid : g.showHint = false)
    (hl : g.findAllSets = []) :
    g.toggleHint.showHint = true ∧ g.toggleHint.stats = g.stats ∧
    g.toggleHint.hintSet = g.hintSet ∧
    (∀ x : Int, g.toggleHint.isHintCard x = arrayContains g.hintSet x) ∧
    g.toggleHint.toggleHint.showHint = false ∧
    g.toggleHint.toggleHint.stats = g.stats ∧
    (∀ x : Int, g.toggleHint.toggleHint.isHintCard x = false) := by
  have h1 := toggleHint_of_nil g hhid hl
  have h2 : g.toggleHint.toggleHint = { g with showHint := false } := by
    rw [toggleHint_of_shown _ (by rw [h1]), h1]
  refine ⟨by rw [h1], by rw [h1], by rw [h1], ?_, by rw [h2], by rw [h2], ?_⟩
  · intro x
    rw [h1]
    simp [SetGame.isHintCard]
  · intro x
    rw [h2]
    simp [SetGame.isHintCard]

/-- C7 (failing input). In the session `staleHintGame` (new session with the deck
`hintShuffle generateDeck`, `toggleHint()`, which hints the set at positions 0, 1, 2, then
`removeSet({0, 1, 2})`) the hint is hidden and the 12 cards of the board hold no valid
triple; `toggleHint` then shows the hint and leaves `hintsUsed` unchanged, but
`isHintCard` is true for the board positions 0, 1 and 2: the triple of the earlier hint is
still recorded and is highlighted. -/
theorem toggleHint_shows_stale_hint :
    (hintShuffle generateDeck).Perm generateDeck ∧
    (SetGame.ctor hintShuffle (0, 0, 0)).toggleHint.hintSet = (0, 1, 2) ∧
    SetGame.isSet (boardAt (SetGame.ctor hintShuffle (0, 0, 0)).board 0)
      (boardAt (SetGame.ctor hintShuffle (0, 0, 0)).board 1)
      (boardAt (SetGame.ctor hintShuffle (0, 0, 0)).board 2) = true ∧
    staleHintGame.showHint = false ∧
    staleHintGame.board.length = 12 ∧
    staleHintGame.findAllSets = [] ∧
    staleHintGame.toggleHint.showHint = true ∧
    staleHintGame.toggleHint.stats.hintsUsed = staleHintGame.stats.hintsUsed ∧
    staleHintGame.toggleHint.isHintCard 0 = true ∧
    staleHintGame.toggleHint.isHintCard 1 = true ∧
    staleHintGame.toggleHint.isHintCard 2 = true := by
  decide!

/-- The properties of C2 on the board of a new session with the deck as generated. -/
theorem findAllSets_spec_witness :
    (SetGame.ctor id (0, 0, 0)).board.length ≤ 2147483648 ∧
    (SetGame.ctor id (0, 0, 0)).findAllSets.Nodup ∧
    (SetGame.ctor id (0, 0, 0)).findAllSets.Pairwise tripleLt :=
  ⟨by decide!,
   (findAllSets_spec (SetGame.ctor id (0, 0, 0)) (by decide!)).2.1,
   (findAllSets_spec (SetGame.ctor id (0, 0, 0)) (by decide!)).2.2.1⟩

/-- The invariant of C3 after `dealCards(3)`, `removeSet({0, 1, 2})`, `dealCards(-1)` on a
new session with the deck as generated. -/
theorem board_deck_invariant_witness :
    (id generateDeck).Perm generateDeck ∧
    (((SetGame.ctor id (0, 0, 0)).run [Op.deal 3, Op.remove (0, 1, 2), Op.deal (-1)]).board ++
      ((SetGame.ctor id (0, 0, 0)).run
        [Op.deal 3, Op.remove (0, 1, 2), Op.deal (-1)]).deck).Nodup :=
  ⟨by rw [id_eq],
   (board_deck_invariant id (0, 0, 0) (by rw [id_eq])
      [Op.deal 3, Op.remove (0, 1, 2), Op.deal (-1)]).1⟩

/-- The effect of C4 for `removeSet({2, 0, 1})` on a new session with the deck as
generated. -/
theorem removeSet_spec_witness :
    ((0 : Int) ≤ 2 ∧ (0 : Int) ≤ 0 ∧ (0 : Int) ≤ 1) ∧
    ((2 : Int) < (SetGame.ctor id (0, 0, 0)).board.length ∧
      (0 : Int) < (SetGame.ctor id (0, 0, 0)).board.length ∧
      (1 : Int) < (SetGame.ctor id (0, 0, 0)).board.length) ∧
    ((2 : Int) ≠ 0 ∧ (0 : Int) ≠ 1 ∧ (2 : Int) ≠ 1) ∧
    ((SetGame.ctor id (0, 0, 0)).removeSet (2, 0, 1)).stats.setsFound =
      (SetGame.ctor id (0, 0, 0)).stats.setsFound + 1 ∧
    ((SetGame.ctor id (0, 0, 0)).removeSet (2, 0, 1)).showHint = false := by
  have h := removeSet_spec (SetGame.ctor id (0, 0, 0)) 2 0 1 (by decide) (by decide)
    (by decide) (by decide!) (by decide!) (by decide!) (by decide) (by decide) (by decide)
  obtain ⟨i, j, k, _, _, _, _, _, _, _, _, hs, _, hh, _⟩ := h
  exact ⟨by decide, ⟨by decide!, by decide!, by decide!⟩, by decide, hs, hh⟩

/-- The effect of C8 on a new session with the deck as generated, whose board holds the
valid triple at positions 0, 1, 2. -/
theorem toggleHint_records_first_set_witness :
    (SetGame.ctor id (0, 0, 0)).showHint = false ∧
    (SetGame.ctor id (0, 0, 0)).board.length ≤ 2147483648 ∧
    (∃ i j k : Nat, validTriple (SetGame.ctor id (0, 0, 0)).board i j k) ∧
    (SetGame.ctor id (0, 0, 0)).toggleHint.showHint = true ∧
    (SetGame.ctor id (0, 0, 0)).toggleHint.stats.hintsUsed =
      (SetGame.ctor id (0, 0, 0)).stats.hintsUsed + 1 := by
  have hex : ∃ i j k : Nat, validTriple (SetGame.ctor id (0, 0, 0)).board i j k :=
    ⟨0, 1, 2, (validTriple_iff _ 0 1 2).mpr ⟨by decide, by decide, by decide!, by decide!⟩⟩
  have h := toggleHint_records_first_set (SetGame.ctor id (0, 0, 0)) (by decide!)
    (by decide!) hex
  obtain ⟨i, j, k, _, _, _, hs, hu, _⟩ := h
  exact ⟨by decide!, by decide!, hex, hs, hu⟩
